import Mathlib

/-!
# Verification of the background reconciliation daemon (`bin/background_indexer.py`)

Shallow embedding of the `BackgroundIndexer` class: the reconciliation pass
`_build_missing_pickles`, the indexing pass `_check_indexes` (with its
set-if-absent lease on the `ongoing_indexing` key), and the driver
`_to_run_forever`.

The shared state (Redis hashes/sets and the filesystem facts the code
consults) is collected in one structure `St`.  External collaborators
(`get_crawled_tree`, `trigger_modules`, the per-index builders) are modelled
by outcome oracles attached to each candidate / catalog entry, following the
failure kinds the code catches and the spec's interface section.
-/

set_option autoImplicit false

namespace BackgroundIndexer

/-- Outcome of a call into the external tree builder / enrichment step for one
capture.  The reconciliation code distinguishes exactly these cases
(`except MissingUUID`, `except NoValidHarFile`, `except Exception`); the
indexing code catches only `NoValidHarFile`. -/
inductive BuildResult where
  | ok
  | missingUUID
  | noValidHar
  | otherErr
deriving DecidableEq, Repr

/-- One candidate directory yielded by the scan
`sorted(capture_dir.glob('**/uuid'), reverse=True)`: its directory path, the
UUID stored in its `uuid` file, whether a `*.har`/`*.har.gz` file is present,
whether `is_locked` reports it locked, and the oracle for what the external
build (`get_crawled_tree` + `trigger_modules`) would do for it. -/
structure Candidate where
  path : String
  uuid : String
  hasHar : Bool
  locked : Bool
  build : BuildResult
deriving DecidableEq, Repr

/-- One entry of the capture catalog returned by `sorted_capture_cache`:
UUID, capture directory path, the `no_index` marker, and the oracle for what
`get_crawled_tree` would do for it during the indexing pass. -/
structure CacheEntry where
  uuid : String
  path : String
  /-- the `no_index` marker of the cache entry (`no_index` is reserved in Lean). -/
  noIndex : Bool
  tree : BuildResult
deriving DecidableEq, Repr

/-- The shared mutable state the daemon reads and writes:

* `lookup_dirs` — the Redis hash `lookup_dirs` (Location Registry),
  UUID to canonical directory path;
* `exdirs` — the set of capture directory paths that currently exist in the
  store (directory-existence checks);
* `pickles` — the set of capture directory paths holding a cached tree
  artifact (`tree.pickle` / `tree.pickle.gz`);
* `discarded` — paths moved into `discarded_captures` (quarantine area);
* `indexed_urls`, `indexed_body_hashes`, `indexed_cookies`,
  `indexed_hhhashes` — the four Redis index-flag sets;
* `ongoing_indexing` — the lease key: `some e` means the key is present and
  expires at absolute time `e`, `none` means absent. -/
structure St where
  lookup_dirs : List (String × String)
  exdirs : List String
  pickles : List String
  discarded : List String
  indexed_urls : List String
  indexed_body_hashes : List String
  indexed_cookies : List String
  indexed_hhhashes : List String
  ongoing_indexing : Option Nat
deriving DecidableEq, Repr

/-- Redis `HGET` on an association list (first binding wins). -/
def hget (r : List (String × String)) (k : String) : Option String :=
  (r.find? (fun kv => kv.1 == k)).map (fun kv => kv.2)

/-- Redis `HSET`: replace any binding of `k` by `v`. -/
def hset (r : List (String × String)) (k v : String) : List (String × String) :=
  (k, v) :: r.filter (fun kv => kv.1 != k)

/-- Redis `HDEL`: drop every binding of `k`. -/
def hdel (r : List (String × String)) (k : String) : List (String × String) :=
  r.filter (fun kv => kv.1 != k)

/-- Redis `HEXISTS`: the key has a binding. -/
def hexists (r : List (String × String)) (k : String) : Bool :=
  (hget r k).isSome

/-- `shutil.move(p, discarded_captures_dir / name)`: the directory leaves the
store (and takes any cached artifact inside it along), and appears in the
quarantine area. -/
def move_to_discarded (st : St) (p : String) : St :=
  { st with
    exdirs := st.exdirs.filter (fun q => q != p)
    pickles := st.pickles.filter (fun q => q != p)
    discarded := p :: st.discarded }

/-- The registry step of `_build_missing_pickles` (lines 60-74): if the UUID
is missing from `lookup_dirs`, register the observed path; otherwise compare
the registered path with the observed one and, on a mismatch, either
quarantine the observed directory (registered path still exists — returned
flag `true` mirrors the `continue`) or re-register the observed path
(registered path is stale). -/
def resolve_registry (st : St) (c : Candidate) : St × Bool :=
  match hget st.lookup_dirs c.uuid with
  | none =>
      ({ st with lookup_dirs := hset st.lookup_dirs c.uuid c.path }, false)
  | some cached_path =>
      if cached_path ≠ c.path then
        if cached_path ∈ st.exdirs then
          (move_to_discarded st c.path, true)
        else
          ({ st with lookup_dirs := hset st.lookup_dirs c.uuid c.path }, false)
      else (st, false)

/-- The `try/except` block around `get_crawled_tree` / `trigger_modules`
(lines 76-89): success creates the pickle; `MissingUUID` and `NoValidHarFile`
are logged and leave the state untouched; any other exception deletes the
registry entry and moves the directory to quarantine. -/
def apply_build (st : St) (c : Candidate) : St :=
  match c.build with
  | .ok => { st with pickles := c.path :: st.pickles }
  | .missingUUID => st
  | .noValidHar => st
  | .otherErr =>
      move_to_discarded { st with lookup_dirs := hdel st.lookup_dirs c.uuid } c.path

/-- How the loop body of `_build_missing_pickles` left one candidate:
skipped before the counter decrement, quarantined as a duplicate (the
`continue` on line 71), or carried through the build attempt. -/
inductive StepKind where
  | skipped
  | dupDiscarded
  | attempted
deriving DecidableEq, Repr

/-- The loop body of `_build_missing_pickles` for one candidate.  A candidate
whose directory is gone, that already has a pickle, has no HAR file, or is
locked, is skipped (lines 42-54; a moved directory fails the pickle and HAR
checks).  Otherwise the registry step runs and, unless it quarantined the
candidate as a duplicate, the build is attempted. -/
def process_candidate (st : St) (c : Candidate) : St × StepKind :=
  if c.path ∉ st.exdirs then (st, .skipped)
  else if c.path ∈ st.pickles then (st, .skipped)
  else if c.hasHar = false then (st, .skipped)
  else if c.locked = true then (st, .skipped)
  else
    match resolve_registry st c with
    | (st1, true) => (st1, .dupDiscarded)
    | (st1, false) => (apply_build st1 c, .attempted)

/-- Result of one reconciliation pass: the final state, the boolean returned
by `_build_missing_pickles` (`true` iff the `for`/`else` branch ran),
the number of attempted builds, and the number of duplicate-quarantines. -/
structure BmpResult where
  st : St
  complete : Bool
  attempts : Nat
  dups : Nat
deriving DecidableEq, Repr

/-- The `for` loop of `_build_missing_pickles` with its `max_captures`
counter: skips do not touch the counter; a duplicate-quarantine decrements it
but `continue`s past the break check; an attempted build decrements it and
then breaks (returning `False`) when the counter has reached zero.
Exhausting the candidate list runs the `for`/`else` branch (`return True`). -/
def bmp_loop : List Candidate → St → Int → BmpResult
  | [], st, _ => ⟨st, true, 0, 0⟩
  | c :: rest, st, m =>
    match process_candidate st c with
    | (st1, .skipped) => bmp_loop rest st1 m
    | (st1, .dupDiscarded) =>
        let r := bmp_loop rest st1 (m - 1)
        ⟨r.st, r.complete, r.attempts, r.dups + 1⟩
    | (st1, .attempted) =>
        if m - 1 ≤ 0 then ⟨st1, false, 1, 0⟩
        else
          let r := bmp_loop rest st1 (m - 1)
          ⟨r.st, r.complete, r.attempts + 1, r.dups⟩

/-- `_build_missing_pickles`: one reconciliation pass over the scanned
candidates with the fixed batch limit `max_captures = 50`. -/
def build_missing_pickles (cands : List Candidate) (st : St) : BmpResult :=
  bmp_loop cands st 50

/-- A candidate is reconcilable and processable: its directory exists, it has
no cached artifact, it has raw source data (a HAR file), and is not locked.
Exactly the candidates for which the loop body does not `continue` before the
`max_captures` decrement. -/
def reconcilable (st : St) (c : Candidate) : Prop :=
  c.path ∈ st.exdirs ∧ c.path ∉ st.pickles ∧ c.hasHar = true ∧ c.locked = false

instance (st : St) (c : Candidate) : Decidable (reconcilable st c) := by
  unfold reconcilable; infer_instance

/-! ## The indexing pass (`_check_indexes`) -/

/-- Redis `SISMEMBER`. -/
def sismember (l : List String) (u : String) : Bool :=
  decide (u ∈ l)

/-- The four index flags of one capture, as read by the pipelined
`sismember` calls (lines 110-115, one batched round trip). -/
structure Flags where
  urls : Bool
  body_hashes : Bool
  cookies : Bool
  hhhashes : Bool
deriving DecidableEq, Repr

/-- The pipeline of lines 110-115: read the four index flags at once. -/
def read_flags (st : St) (u : String) : Flags :=
  { urls := sismember st.indexed_urls u
    body_hashes := sismember st.indexed_body_hashes u
    cookies := sismember st.indexed_cookies u
    hhhashes := sismember st.indexed_hhhashes u }

/-- `all(indexed)` on line 116. -/
def all_indexed (f : Flags) : Bool :=
  f.urls && f.body_hashes && f.cookies && f.hhhashes

/-- Modelled from the spec: the external builder `indexing.index_url_capture`
is not under `src/`; per section 4.7 a successful build marks the capture's
UUID in the corresponding index-flag set. -/
def index_url_capture (st : St) (u : String) : St :=
  { st with indexed_urls := u :: st.indexed_urls }

/-- Modelled from the spec: the external builder
`indexing.index_body_hashes_capture` is not under `src/`; per section 4.7 a
successful build marks the capture's UUID in the corresponding flag set. -/
def index_body_hashes_capture (st : St) (u : String) : St :=
  { st with indexed_body_hashes := u :: st.indexed_body_hashes }

/-- Modelled from the spec: the external builder
`indexing.index_cookies_capture` is not under `src/`; per section 4.7 a
successful build marks the capture's UUID in the corresponding flag set. -/
def index_cookies_capture (st : St) (u : String) : St :=
  { st with indexed_cookies := u :: st.indexed_cookies }

/-- Modelled from the spec: the external builder
`indexing.index_http_headers_hashes_capture` is not under `src/`; per section
4.7 a successful build marks the capture's UUID in the corresponding flag
set. -/
def index_http_headers_hashes_capture (st : St) (u : String) : St :=
  { st with indexed_hhhashes := u :: st.indexed_hhhashes }

/-- `lookyloo.remove_pickle(cache.uuid)` (line 122): delete only the cached
artifact of that capture. -/
def remove_pickle (st : St) (c : CacheEntry) : St :=
  { st with pickles := st.pickles.filter (fun q => q != c.path) }

/-- Which of the four index builds ran for a capture. -/
inductive IndexKind where
  | url
  | bodyHash
  | cookie
  | hhh
deriving DecidableEq, Repr

/-- Lines 125-136: invoke exactly the builds whose flag is `false`, in the
fixed order URL, body-hash, cookie, header-hash; also return the list of
builds that ran. -/
def run_missing_indexes (st : St) (c : CacheEntry) (f : Flags) : St × List IndexKind :=
  let s1 := if f.urls then (st, ([] : List IndexKind))
            else (index_url_capture st c.uuid, [IndexKind.url])
  let s2 := if f.body_hashes then (s1.1, ([] : List IndexKind))
            else (index_body_hashes_capture s1.1 c.uuid, [IndexKind.bodyHash])
  let s3 := if f.cookies then (s2.1, ([] : List IndexKind))
            else (index_cookies_capture s2.1 c.uuid, [IndexKind.cookie])
  let s4 := if f.hhhashes then (s3.1, ([] : List IndexKind))
            else (index_http_headers_hashes_capture s3.1 c.uuid, [IndexKind.hhh])
  (s4.1, s1.2 ++ s2.2 ++ s3.2 ++ s4.2)

/-- How the body of the catalog loop left one capture. -/
inductive IdxOutcome where
  /-- skipped on line 109: public instance and `no_index` set. -/
  | skippedNoIndex
  /-- skipped on line 117: all four flags already set. -/
  | skippedIndexed
  /-- `NoValidHarFile` caught (lines 120-123): stale artifact removed. -/
  | removedPickle
  /-- tree obtained, missing indexes built. -/
  | built
  /-- `get_crawled_tree` failed with an exception the loop does not catch
  (e.g. `MissingUUID`): it propagates out of `_check_indexes`. -/
  | raised
deriving DecidableEq, Repr

/-- The body of the catalog loop of `_check_indexes` (lines 106-136) for one
capture: skip unindexable or fully indexed captures, obtain the tree, on a
broken pickle delete the artifact and skip, otherwise build the missing
indexes.  Only `NoValidHarFile` is caught; any other failure of
`get_crawled_tree` escapes the loop. -/
def index_capture (pub : Bool) (st : St) (c : CacheEntry) : St × List IndexKind × IdxOutcome :=
  if pub && c.noIndex then (st, [], .skippedNoIndex)
  else if all_indexed (read_flags st c.uuid) then (st, [], .skippedIndexed)
  else
    match c.tree with
    | .noValidHar => (remove_pickle st c, [], .removedPickle)
    | .ok =>
        let r := run_missing_indexes st c (read_flags st c.uuid)
        (r.1, r.2, .built)
    | _ => (st, [], .raised)

/-- Result of `_check_indexes`: the final state, the trace of index builds
that ran (capture UUID and index kind, in invocation order), and whether the
method terminated by an uncaught exception instead of returning. -/
structure IdxResult where
  st : St
  trace : List (String × IndexKind)
  raised : Bool
deriving DecidableEq, Repr

/-- The catalog loop of `_check_indexes`: process the cache entries in order;
an uncaught per-capture failure aborts the iteration. -/
def idx_loop (pub : Bool) : List CacheEntry → St → IdxResult
  | [], st => ⟨st, [], false⟩
  | c :: rest, st =>
    let r := index_capture pub st c
    match r.2.2 with
    | .raised => ⟨r.1, [], true⟩
    | _ =>
        let k := idx_loop pub rest r.1
        ⟨k.st, (r.2.1.map (fun i => (c.uuid, i))) ++ k.trace, k.raised⟩

/-- `index_redis.set('ongoing_indexing', 1, ex=300, nx=True)` at time `now`:
set-if-absent with a 300-unit TTL.  An expired key counts as absent.  Returns
the new state and whether the caller acquired the lease. -/
def set_nx_ex (st : St) (now : Nat) : St × Bool :=
  match st.ongoing_indexing with
  | some e =>
      if now < e then (st, false)
      else ({ st with ongoing_indexing := some (now + 300) }, true)
  | none => ({ st with ongoing_indexing := some (now + 300) }, true)

/-- `index_redis.delete('ongoing_indexing')` (line 139): unconditional
delete of the lease key. -/
def del_lease (st : St) : St :=
  { st with ongoing_indexing := none }

/-- `_check_indexes` at time `now`: try to acquire the lease; if the key was
already present, return at once.  Otherwise run the catalog loop and, if it
finished without an uncaught exception, delete the lease key.  An uncaught
exception propagates to the caller with the lease key still set. -/
def check_indexes (pub : Bool) (now : Nat) (caches : List CacheEntry) (st : St) : IdxResult :=
  let a := set_nx_ex st now
  if a.2 = false then ⟨a.1, [], false⟩
  else
    let r := idx_loop pub caches a.1
    if r.raised then r
    else ⟨del_lease r.st, r.trace, false⟩

/-- Result of one `_to_run_forever` pass. -/
structure RunResult where
  st : St
  complete : Bool
  trace : List (String × IndexKind)
  raised : Bool
deriving DecidableEq, Repr

/-- `_to_run_forever` (lines 30-34): run the reconciliation pass; only when
it reports `True` run `_check_indexes`. -/
def to_run_forever (cands : List Candidate) (caches : List CacheEntry)
    (pub : Bool) (now : Nat) (st : St) : RunResult :=
  let b := build_missing_pickles cands st
  if b.complete then
    let r := check_indexes pub now caches b.st
    ⟨r.st, true, r.trace, r.raised⟩
  else
    ⟨b.st, false, [], false⟩

/-! ## Concrete states and inputs used for witnesses and counterexamples -/

/-- The empty store. -/
def st_empty : St :=
  { lookup_dirs := [], exdirs := [], pickles := [], discarded := [],
    indexed_urls := [], indexed_body_hashes := [], indexed_cookies := [],
    indexed_hhhashes := [], ongoing_indexing := none }

/-- A fresh reconcilable candidate whose build succeeds. -/
def cand_b1 : Candidate :=
  { path := "p1", uuid := "u1", hasHar := true, locked := false, build := .ok }

/-- A reconcilable candidate whose build fails with `MissingUUID`. -/
def cand_missing : Candidate :=
  { path := "p2", uuid := "u2", hasHar := true, locked := false, build := .missingUUID }

/-- A reconcilable candidate whose build fails with an unexpected exception. -/
def cand_broken : Candidate :=
  { path := "p3", uuid := "u3", hasHar := true, locked := false, build := .otherErr }

/-- Store with `u1` registered at the still-existing directory `a1` while a
second copy sits at `p1`. -/
def st_dup_live : St :=
  { st_empty with exdirs := ["p1", "a1"], lookup_dirs := [("u1", "a1")] }

/-- Store with `u1` registered at the vanished directory `a1` while the data
sits at `p1`. -/
def st_dup_stale : St :=
  { st_empty with exdirs := ["p1"], lookup_dirs := [("u1", "a1")] }

/-- Store containing only the directory of `cand_b1`. -/
def st_p1 : St := { st_empty with exdirs := ["p1"] }

/-- 51 reconcilable, unlocked candidates, every one of which is a duplicate
of a registry entry that still exists elsewhere (see `st_dups`). -/
def dup_cands : List Candidate :=
  (List.range 51).map fun i =>
    { path := "b" ++ toString i, uuid := "w" ++ toString i, hasHar := true,
      locked := false, build := .ok }

/-- Store for `dup_cands`: each `w«i»` is registered at the existing
directory `a«i»`, distinct from the candidate directory `b«i»`. -/
def st_dups : St :=
  { st_empty with
    lookup_dirs := (List.range 51).map fun i => ("w" ++ toString i, "a" ++ toString i)
    exdirs := ((List.range 51).map fun i => "b" ++ toString i)
      ++ (List.range 51).map fun i => "a" ++ toString i }

/-- Exactly 50 fresh reconcilable candidates with successful builds. -/
def fresh_cands50 : List Candidate :=
  (List.range 50).map fun i =>
    { path := "f" ++ toString i, uuid := "v" ++ toString i, hasHar := true,
      locked := false, build := .ok }

/-- Store containing exactly the 50 directories of `fresh_cands50`. -/
def st_fresh50 : St :=
  { st_empty with exdirs := (List.range 50).map fun i => "f" ++ toString i }

/-- 51 fresh reconcilable candidates with successful builds. -/
def fresh_cands51 : List Candidate :=
  (List.range 51).map fun i =>
    { path := "f" ++ toString i, uuid := "v" ++ toString i, hasHar := true,
      locked := false, build := .ok }

/-- Store containing exactly the 51 directories of `fresh_cands51`. -/
def st_fresh51 : St :=
  { st_empty with exdirs := (List.range 51).map fun i => "f" ++ toString i }

/-- A catalog entry whose tree build fails with `MissingUUID` — an exception
`_check_indexes` does not catch. -/
def cache_missing : CacheEntry :=
  { uuid := "cu", path := "cp", noIndex := false, tree := .missingUUID }

/-- A catalog entry whose cached artifact is malformed (`NoValidHarFile`). -/
def cache_broken : CacheEntry :=
  { uuid := "cv", path := "cq", noIndex := false, tree := .noValidHar }

/-- A catalog entry whose tree build succeeds. -/
def cache_ok : CacheEntry :=
  { uuid := "cw", path := "cr", noIndex := false, tree := .ok }

/-- Store with only the cookie index built for `cache_ok`. -/
def st_cookie : St := { st_empty with indexed_cookies := ["cw"] }

/-- Store holding an unexpired lease at time 0. -/
def st_leased : St := { st_empty with ongoing_indexing := some 100 }

/-- Store holding the broken capture `cache_broken`'s directory and artifact. -/
def st_cq : St := { st_empty with exdirs := ["cq"], pickles := ["cq"] }

/-! ## Derived predicates used by the proofs -/

/-- The registry entry for a candidate is absent or already canonical. -/
def regOK (st : St) (c : Candidate) : Prop :=
  hget st.lookup_dirs c.uuid = none ∨ hget st.lookup_dirs c.uuid = some c.path

instance (st : St) (c : Candidate) : Decidable (regOK st c) := by
  unfold regOK; infer_instance

/-- What one loop-body step can do to parts of the state not belonging to the
processed candidate: directories and artifacts at other paths are untouched,
and registry entries of other UUIDs are untouched. -/
def StepPres (s1 s2 : St) (dp du : String) : Prop :=
  (∀ p, p ≠ dp → (p ∈ s2.exdirs ↔ p ∈ s1.exdirs)) ∧
  (∀ p, p ≠ dp → (p ∈ s2.pickles ↔ p ∈ s1.pickles)) ∧
  (∀ u, u ≠ du → hget s2.lookup_dirs u = hget s1.lookup_dirs u)

/-- The index-related part of the state: the four flag sets and the lease. -/
def idx_part (st : St) :
    List String × List String × List String × List String × Option Nat :=
  (st.indexed_urls, st.indexed_body_hashes, st.indexed_cookies,
   st.indexed_hhhashes, st.ongoing_indexing)

/-- A reconcilable-again probe candidate for the capture of `cache_broken`. -/
def cand_cq : Candidate :=
  { path := "cq", uuid := "cv", hasHar := true, locked := false, build := .ok }

/-- A candidate the loop body leaves the state unchanged on: it gets skipped
(directory gone, artifact already present, no source data, or locked), or it
is attempted with a canonical registry entry and a build that fails benignly
(`MissingUUID` / `NoValidHarFile`), touching nothing. -/
def Inert (st : St) (c : Candidate) : Prop :=
  c.path ∉ st.exdirs ∨ c.path ∈ st.pickles ∨ c.hasHar = false ∨ c.locked = true ∨
    (hget st.lookup_dirs c.uuid = some c.path ∧ c.path ∈ st.exdirs ∧
      (c.build = .missingUUID ∨ c.build = .noValidHar))

/-! ## Basic lemmas about the store operations -/

theorem hget_hset_self (r : List (String × String)) (k v : String) :
    hget (hset r k v) k = some v := by
  simp [hget, hset]

theorem find?_filter_ne_key (t : List (String × String)) (k k' : String) (h : k' ≠ k) :
    List.find? (fun kv => kv.1 == k') (List.filter (fun kv => kv.1 != k) t)
      = List.find? (fun kv => kv.1 == k') t := by
  induction t with
  | nil => rfl
  | cons kv t ih =>
      by_cases hkv : kv.1 = k
      · rw [List.filter_cons_of_neg (by simp [hkv]),
          List.find?_cons_of_neg _ (by simp [hkv, Ne.symm h]), ih]
      · rw [List.filter_cons_of_pos (by simp [hkv])]
        by_cases hkv' : kv.1 = k'
        · rw [List.find?_cons_of_pos _ (by simp [hkv']),
            List.find?_cons_of_pos _ (by simp [hkv'])]
        · rw [List.find?_cons_of_neg _ (by simp [hkv']),
            List.find?_cons_of_neg _ (by simp [hkv']), ih]

theorem find?_filter_self_key (t : List (String × String)) (k : String) :
    List.find? (fun kv => kv.1 == k) (List.filter (fun kv => kv.1 != k) t) = none := by
  induction t with
  | nil => rfl
  | cons kv t ih =>
      by_cases hkv : kv.1 = k
      · rw [List.filter_cons_of_neg (by simp [hkv])]
        exact ih
      · rw [List.filter_cons_of_pos (by simp [hkv]),
          List.find?_cons_of_neg _ (by simp [hkv])]
        exact ih

theorem hget_hset_ne (r : List (String × String)) (k v k' : String) (h : k' ≠ k) :
    hget (hset r k v) k' = hget r k' := by
  unfold hget hset
  rw [List.find?_cons_of_neg _ (by simp [Ne.symm h]), find?_filter_ne_key r k k' h]

theorem hget_hdel_self (r : List (String × String)) (k : String) :
    hget (hdel r k) k = none := by
  unfold hget hdel
  rw [find?_filter_self_key]
  rfl

theorem hget_hdel_ne (r : List (String × String)) (k k' : String) (h : k' ≠ k) :
    hget (hdel r k) k' = hget r k' := by
  unfold hget hdel
  rw [find?_filter_ne_key r k k' h]

theorem mem_filter_ne (l : List String) (a p : String) (h : a ≠ p) :
    a ∈ l.filter (fun q => q != p) ↔ a ∈ l := by
  simp [List.mem_filter, h]

theorem not_mem_filter_self (l : List String) (p : String) :
    p ∉ l.filter (fun q => q != p) := by
  simp [List.mem_filter]

/-! ## Shape lemmas for the loop body -/

theorem process_skipped (st : St) (c : Candidate) (h : ¬ reconcilable st c) :
    process_candidate st c = (st, .skipped) := by
  unfold process_candidate
  by_cases h1 : c.path ∉ st.exdirs
  · simp [h1]
  · by_cases h2 : c.path ∈ st.pickles
    · simp [h1, h2]
    · by_cases h3 : c.hasHar = false
      · simp [h1, h2, h3]
      · by_cases h4 : c.locked = true
        · simp [h1, h2, h3, h4]
        · exact absurd ⟨not_not.mp h1, h2, by simpa using h3, by simpa using h4⟩ h

theorem process_reconcilable (st : St) (c : Candidate) (h : reconcilable st c) :
    process_candidate st c =
      (if (resolve_registry st c).2 then ((resolve_registry st c).1, .dupDiscarded)
       else (apply_build (resolve_registry st c).1 c, .attempted)) := by
  obtain ⟨h1, h2, h3, h4⟩ := h
  unfold process_candidate
  rw [if_neg (by simpa using h1), if_neg h2, if_neg (by simp [h3]), if_neg (by simp [h4])]
  rcases hr : resolve_registry st c with ⟨st1, b⟩
  cases b <;> simp

theorem resolve_of_regOK (st : St) (c : Candidate) (h : regOK st c) :
    (resolve_registry st c = ({ st with lookup_dirs := hset st.lookup_dirs c.uuid c.path }, false)
      ∨ resolve_registry st c = (st, false)) := by
  rcases h with h | h
  · left; simp [resolve_registry, h]
  · right; simp [resolve_registry, h]

theorem process_attempted (st : St) (c : Candidate)
    (hrec : reconcilable st c) (hreg : regOK st c) :
    process_candidate st c = (apply_build (resolve_registry st c).1 c, .attempted) := by
  rw [process_reconcilable st c hrec]
  rcases resolve_of_regOK st c hreg with h | h <;> rw [h] <;> simp

/-- If the registry step did not quarantine the candidate, afterwards the
registry maps the candidate's UUID to its own path and the directory set is
untouched. -/
theorem resolve_no_dup (st : St) (c : Candidate)
    (h : (resolve_registry st c).2 = false) :
    hget (resolve_registry st c).1.lookup_dirs c.uuid = some c.path ∧
    (resolve_registry st c).1.exdirs = st.exdirs ∧
    (resolve_registry st c).1.pickles = st.pickles := by
  cases hg : hget st.lookup_dirs c.uuid with
  | none =>
      have hr : resolve_registry st c
          = ({ st with lookup_dirs := hset st.lookup_dirs c.uuid c.path }, false) := by
        simp [resolve_registry, hg]
      rw [hr]
      exact ⟨hget_hset_self _ _ _, rfl, rfl⟩
  | some p =>
      by_cases hp : p = c.path
      · have hr : resolve_registry st c = (st, false) := by
          simp [resolve_registry, hg, hp]
        rw [hr]
        exact ⟨by rw [hg, hp], rfl, rfl⟩
      · by_cases hex : p ∈ st.exdirs
        · have hr : resolve_registry st c = (move_to_discarded st c.path, true) := by
            simp [resolve_registry, hg, hp, hex]
          rw [hr] at h
          cases h
        · have hr : resolve_registry st c
              = ({ st with lookup_dirs := hset st.lookup_dirs c.uuid c.path }, false) := by
            simp [resolve_registry, hg, hp, hex]
          rw [hr]
          exact ⟨hget_hset_self _ _ _, rfl, rfl⟩

/-- If the registry maps this candidate's UUID to another, still existing,
directory, the loop body either skips the candidate or quarantines it;
either way the registry is untouched. -/
theorem process_of_dup (st : St) (d : Candidate) (p : String)
    (hg : hget st.lookup_dirs d.uuid = some p) (hne : p ≠ d.path)
    (hex : p ∈ st.exdirs) :
    (process_candidate st d).1 = st ∨
    (process_candidate st d).1 = move_to_discarded st d.path := by
  by_cases hrec : reconcilable st d
  · right
    rw [process_reconcilable st d hrec]
    have hr : resolve_registry st d = (move_to_discarded st d.path, true) := by
      simp [resolve_registry, hg, hne, hex]
    rw [hr]
    simp
  · left; rw [process_skipped st d hrec]

theorem stepPres_refl (s : St) (dp du : String) : StepPres s s dp du :=
  ⟨fun _ _ => Iff.rfl, fun _ _ => Iff.rfl, fun _ _ => rfl⟩

theorem stepPres_trans {s1 s2 s3 : St} {dp du : String}
    (h12 : StepPres s1 s2 dp du) (h23 : StepPres s2 s3 dp du) :
    StepPres s1 s3 dp du :=
  ⟨fun p hp => (h23.1 p hp).trans (h12.1 p hp),
   fun p hp => (h23.2.1 p hp).trans (h12.2.1 p hp),
   fun u hu => (h23.2.2 u hu).trans (h12.2.2 u hu)⟩

theorem stepPres_move (s : St) (dp du : String) :
    StepPres s (move_to_discarded s dp) dp du :=
  ⟨fun p hp => mem_filter_ne _ _ _ hp,
   fun p hp => mem_filter_ne _ _ _ hp,
   fun _ _ => rfl⟩

theorem stepPres_hset (s : St) (dp du v : String) :
    StepPres s { s with lookup_dirs := hset s.lookup_dirs du v } dp du :=
  ⟨fun _ _ => Iff.rfl, fun _ _ => Iff.rfl,
   fun u hu => hget_hset_ne _ _ _ _ hu⟩

theorem stepPres_hdel (s : St) (dp du : String) :
    StepPres s { s with lookup_dirs := hdel s.lookup_dirs du } dp du :=
  ⟨fun _ _ => Iff.rfl, fun _ _ => Iff.rfl,
   fun u hu => hget_hdel_ne _ _ _ hu⟩

theorem stepPres_pickle (s : St) (dp du : String) :
    StepPres s { s with pickles := dp :: s.pickles } dp du :=
  ⟨fun _ _ => Iff.rfl,
   fun p hp => by simp [List.mem_cons, hp],
   fun _ _ => rfl⟩

theorem stepPres_apply_build (s : St) (d : Candidate) :
    StepPres s (apply_build s d) d.path d.uuid := by
  unfold apply_build
  cases d.build with
  | ok => exact stepPres_pickle s d.path d.uuid
  | missingUUID => exact stepPres_refl s d.path d.uuid
  | noValidHar => exact stepPres_refl s d.path d.uuid
  | otherErr =>
      exact stepPres_trans (stepPres_hdel s d.path d.uuid)
        (stepPres_move { s with lookup_dirs := hdel s.lookup_dirs d.uuid } d.path d.uuid)

theorem stepPres_resolve (s : St) (d : Candidate) :
    StepPres s (resolve_registry s d).1 d.path d.uuid := by
  unfold resolve_registry
  cases hg : hget s.lookup_dirs d.uuid with
  | none => exact stepPres_hset s d.path d.uuid d.path
  | some p =>
      by_cases hp : p ≠ d.path
      · by_cases hex : p ∈ s.exdirs
        · simp only [if_pos hp, if_pos hex]
          exact stepPres_move s d.path d.uuid
        · simp only [if_pos hp, if_neg hex]
          exact stepPres_hset s d.path d.uuid d.path
      · simp only [if_neg hp]
        exact stepPres_refl s d.path d.uuid

theorem stepPres_process (s : St) (d : Candidate) :
    StepPres s (process_candidate s d).1 d.path d.uuid := by
  by_cases hrec : reconcilable s d
  · rw [process_reconcilable s d hrec]
    cases hb : (resolve_registry s d).2
    · simp only [hb, if_neg Bool.false_ne_true]
      exact stepPres_trans (stepPres_resolve s d)
        (stepPres_apply_build (resolve_registry s d).1 d)
    · simp only [hb, if_pos rfl]
      exact stepPres_resolve s d
  · rw [process_skipped s d hrec]
    exact stepPres_refl s d.path d.uuid

/-- Reconcilability of another candidate is invariant under one step. -/
theorem stepPres_reconcilable {s1 s2 : St} {dp du : String}
    (h : StepPres s1 s2 dp du) (c : Candidate) (hp : c.path ≠ dp) :
    reconcilable s2 c ↔ reconcilable s1 c := by
  unfold reconcilable
  rw [h.1 c.path hp, h.2.1 c.path hp]

/-! ## C1: duplicate resolution -/

/-- **C1** Duplicate resolution: for a processable candidate at path `B`
(`c.path`) whose UUID the registry maps to `A ≠ B`: if `A` still exists, `B`
is moved to the quarantine area, the registry entry still points to `A`, and
the candidate's processing ends as `dupDiscarded` — no build is attempted for
it in this pass; if `A` no longer exists, the registry step re-registers the
UUID at `B` and quarantines nothing. -/
theorem duplicate_resolution (st : St) (c : Candidate) (A : String)
    (hrec : reconcilable st c)
    (hreg : hget st.lookup_dirs c.uuid = some A) (hne : A ≠ c.path) :
    (A ∈ st.exdirs →
      process_candidate st c = (move_to_discarded st c.path, .dupDiscarded) ∧
      hget (move_to_discarded st c.path).lookup_dirs c.uuid = some A ∧
      (move_to_discarded st c.path).discarded = c.path :: st.discarded ∧
      c.path ∉ (move_to_discarded st c.path).exdirs) ∧
    (A ∉ st.exdirs →
      resolve_registry st c =
        ({ st with lookup_dirs := hset st.lookup_dirs c.uuid c.path }, false) ∧
      hget (hset st.lookup_dirs c.uuid c.path) c.uuid = some c.path ∧
      ({ st with lookup_dirs := hset st.lookup_dirs c.uuid c.path } : St).discarded
        = st.discarded) := by
  obtain ⟨h1, h2, h3, h4⟩ := hrec
  constructor
  · intro hA
    refine ⟨?_, hreg, rfl, not_mem_filter_self _ _⟩
    simp [process_candidate, resolve_registry, h1, h2, h3, h4, hreg, hne, hA]
  · intro hA
    refine ⟨?_, hget_hset_self _ _ _, rfl⟩
    simp [resolve_registry, hreg, hne, hA]

/-- Closed witness for C1: both branches evaluated at concrete stores. -/
theorem duplicate_resolution_witness :
    (process_candidate st_dup_live cand_b1
        = (move_to_discarded st_dup_live "p1", .dupDiscarded) ∧
      hget (move_to_discarded st_dup_live "p1").lookup_dirs "u1" = some "a1") ∧
    resolve_registry st_dup_stale cand_b1
      = ({ st_dup_stale with
            lookup_dirs := hset st_dup_stale.lookup_dirs "u1" "p1" }, false) := by
  have hlive := duplicate_resolution st_dup_live cand_b1 "a1"
    (by constructor <;> simp [st_dup_live, st_empty, cand_b1]) (by rfl) (by decide)
  have hstale := duplicate_resolution st_dup_stale cand_b1 "a1"
    (by constructor <;> simp [st_dup_stale, st_empty, cand_b1]) (by rfl) (by decide)
  exact ⟨⟨(hlive.1 (by simp [st_dup_live, st_empty])).1,
    (hlive.1 (by simp [st_dup_live, st_empty])).2.1⟩,
    (hstale.2 (by simp [st_dup_stale, st_empty])).1⟩

/-! ## C4: build-failure handling -/

/-- **C4** Build-failure handling: for an attempted build, an unexpected
failure moves the capture directory to quarantine and deletes its registry
entry, while a `MissingUUID` or `NoValidHarFile` failure leaves the state
completely unchanged. -/
theorem build_failure_handling (st : St) (c : Candidate) :
    (c.build = .otherErr →
      (apply_build st c).discarded = c.path :: st.discarded ∧
      c.path ∉ (apply_build st c).exdirs ∧
      hget (apply_build st c).lookup_dirs c.uuid = none) ∧
    (c.build = .missingUUID ∨ c.build = .noValidHar → apply_build st c = st) := by
  constructor
  · intro h
    simp only [apply_build, h]
    exact ⟨rfl, not_mem_filter_self _ _, hget_hdel_self _ _⟩
  · rintro (h | h) <;> simp [apply_build, h]

/-- Closed witness for C4: both failure classes evaluated concretely. -/
theorem build_failure_handling_witness :
    ((apply_build st_p1 cand_broken).discarded = ["p3"] ∧
      hget (apply_build st_p1 cand_broken).lookup_dirs "u3" = none) ∧
    apply_build st_p1 cand_missing = st_p1 := by
  have hbroken := (build_failure_handling st_p1 cand_broken).1 rfl
  have hmiss := (build_failure_handling st_p1 cand_missing).2 (Or.inl rfl)
  exact ⟨⟨hbroken.1, hbroken.2.2⟩, hmiss⟩

/-! ## C9: lease semantics -/

/-- **C9** Lease semantics: `acquire` is set-if-absent with TTL 300 — on an
absent key it installs the key with expiry `now + 300` and returns `true`; on
an unexpired key it returns `false` and changes nothing; hence of two
acquisition attempts with no intervening release or expiry exactly the first
succeeds; `release` is an unconditional delete. -/
theorem lease_semantics (st : St) (now now2 : Nat) :
    (st.ongoing_indexing = none →
      set_nx_ex st now = ({ st with ongoing_indexing := some (now + 300) }, true)) ∧
    (∀ e, st.ongoing_indexing = some e → now < e → set_nx_ex st now = (st, false)) ∧
    (st.ongoing_indexing = none → now2 < now + 300 →
      (set_nx_ex st now).2 = true ∧ (set_nx_ex (set_nx_ex st now).1 now2).2 = false) ∧
    (del_lease st).ongoing_indexing = none := by
  refine ⟨?_, ?_, ?_, rfl⟩
  · intro h; simp [set_nx_ex, h]
  · intro e he hlt; simp [set_nx_ex, he, hlt]
  · intro h hlt
    constructor
    · simp [set_nx_ex, h]
    · simp [set_nx_ex, h, hlt]

/-- Closed witness for C9 at the empty store, times 0 and 5. -/
theorem lease_semantics_witness :
    set_nx_ex st_empty 0 = ({ st_empty with ongoing_indexing := some 300 }, true) ∧
    (set_nx_ex (set_nx_ex st_empty 0).1 5).2 = false := by
  have h := lease_semantics st_empty 0 5
  exact ⟨h.1 rfl, (h.2.2.1 rfl (by norm_num)).2⟩

/-! ## C8: malformed-artifact recovery -/

/-- **C8** Malformed-artifact recovery: when the Index Coordinator examines a
capture whose artifact turns out malformed, it deletes only that capture's
cached artifact — registry, directories, quarantine and all four index-flag
sets are untouched, no build is invoked, the capture is skipped for this pass
— and any candidate for the same directory with source data present is
reconcilable again for the next reconciliation pass. -/
theorem malformed_artifact_recovery (pub : Bool) (st : St) (c : CacheEntry)
    (hni : (pub && c.noIndex) = false)
    (hflags : all_indexed (read_flags st c.uuid) = false)
    (htree : c.tree = .noValidHar) :
    index_capture pub st c = (remove_pickle st c, [], .removedPickle) ∧
    (remove_pickle st c).pickles = st.pickles.filter (fun q => q != c.path) ∧
    c.path ∉ (remove_pickle st c).pickles ∧
    (remove_pickle st c).lookup_dirs = st.lookup_dirs ∧
    (remove_pickle st c).exdirs = st.exdirs ∧
    (remove_pickle st c).discarded = st.discarded ∧
    (remove_pickle st c).indexed_urls = st.indexed_urls ∧
    (remove_pickle st c).indexed_body_hashes = st.indexed_body_hashes ∧
    (remove_pickle st c).indexed_cookies = st.indexed_cookies ∧
    (remove_pickle st c).indexed_hhhashes = st.indexed_hhhashes ∧
    (∀ cand : Candidate, cand.path = c.path → cand.hasHar = true →
      cand.locked = false → c.path ∈ st.exdirs →
      reconcilable (remove_pickle st c) cand) := by
  refine ⟨?_, rfl, not_mem_filter_self _ _, rfl, rfl, rfl, rfl, rfl, rfl, rfl, ?_⟩
  · simp [index_capture, hni, hflags, htree]
  · intro cand hp hh hl hex
    refine ⟨?_, ?_, hh, hl⟩
    · show cand.path ∈ st.exdirs
      rw [hp]; exact hex
    · show cand.path ∉ st.pickles.filter (fun q => q != c.path)
      rw [hp]; exact not_mem_filter_self _ _

/-- Closed witness for C8 at a concrete broken capture. -/
theorem malformed_artifact_recovery_witness :
    index_capture false st_cq cache_broken
      = (remove_pickle st_cq cache_broken, [], .removedPickle) ∧
    reconcilable (remove_pickle st_cq cache_broken) cand_cq := by
  have h := malformed_artifact_recovery false st_cq cache_broken rfl rfl rfl
  exact ⟨h.1, h.2.2.2.2.2.2.2.2.2.2 cand_cq (by decide) rfl rfl (by decide)⟩

/-! ## C7: index selectivity and order -/

theorem run_missing_indexes_trace (st : St) (c : CacheEntry) (f : Flags) :
    (run_missing_indexes st c f).2 =
      (if f.urls then [] else [IndexKind.url]) ++
      (if f.body_hashes then [] else [IndexKind.bodyHash]) ++
      (if f.cookies then [] else [IndexKind.cookie]) ++
      (if f.hhhashes then [] else [IndexKind.hhh]) := by
  obtain ⟨u, b, ck, hh⟩ := f
  cases u <;> cases b <;> cases ck <;> cases hh <;> rfl

/-- Counterexample to C7 as stated: a capture whose four flags are all false
but whose cached artifact is malformed is examined (not `no_index`-skipped),
yet no index build at all is invoked, instead of "exactly the builds whose
flag is false". -/
theorem index_selectivity_counterexample :
    read_flags st_cq cache_broken.uuid = ⟨false, false, false, false⟩ ∧
    (false && cache_broken.noIndex) = false ∧
    (index_capture false st_cq cache_broken).2.1 = [] ∧
    (index_capture false st_cq cache_broken).2.1 ≠
      [IndexKind.url, IndexKind.bodyHash, IndexKind.cookie, IndexKind.hhh] := by
  exact ⟨rfl, rfl, rfl, by decide⟩

/-- **C7** (amended) Index selectivity and order: for every capture examined
by the Index Coordinator the four flags are read in one batched round trip
(modelled by the single `read_flags`); if all four are true the capture is
skipped with no builds; otherwise, *provided the tree is obtained
successfully*, exactly the builds whose flag is false run, in the fixed order
URL, body-hash, cookie, header-hash (a capture whose artifact is malformed
gets no builds, see C8). -/
theorem index_selectivity (pub : Bool) (st : St) (c : CacheEntry)
    (hni : (pub && c.noIndex) = false) :
    (all_indexed (read_flags st c.uuid) = true →
      index_capture pub st c = (st, [], .skippedIndexed)) ∧
    (all_indexed (read_flags st c.uuid) = false → c.tree = .ok →
      (index_capture pub st c).2.1 =
        (if (read_flags st c.uuid).urls then [] else [IndexKind.url]) ++
        (if (read_flags st c.uuid).body_hashes then [] else [IndexKind.bodyHash]) ++
        (if (read_flags st c.uuid).cookies then [] else [IndexKind.cookie]) ++
        (if (read_flags st c.uuid).hhhashes then [] else [IndexKind.hhh]) ∧
      (index_capture pub st c).2.2 = .built) := by
  constructor
  · intro h
    simp [index_capture, hni, h]
  · intro h htree
    have hcap : index_capture pub st c
        = ((run_missing_indexes st c (read_flags st c.uuid)).1,
           (run_missing_indexes st c (read_flags st c.uuid)).2, .built) := by
      simp [index_capture, hni, h, htree]
    rw [hcap]
    exact ⟨run_missing_indexes_trace st c (read_flags st c.uuid), rfl⟩

/-- Closed witness for C7: with only the cookie flag set, exactly the URL,
body-hash and header-hash builds run, in that order. -/
theorem index_selectivity_witness :
    (index_capture false st_cookie cache_ok).2.1
      = [IndexKind.url, IndexKind.bodyHash, IndexKind.hhh] := by
  have h := ((index_selectivity false st_cookie cache_ok rfl).2 rfl rfl).1
  rw [h]
  rfl

/-! ## C5: the indexing gate -/

theorem idx_part_resolve (st : St) (c : Candidate) :
    idx_part (resolve_registry st c).1 = idx_part st := by
  cases hg : hget st.lookup_dirs c.uuid with
  | none => simp [resolve_registry, hg, idx_part, move_to_discarded]
  | some p =>
      by_cases hp : p = c.path
      · simp [resolve_registry, hg, hp, idx_part]
      · by_cases hex : p ∈ st.exdirs <;>
          simp [resolve_registry, hg, hp, hex, idx_part, move_to_discarded]

theorem idx_part_apply_build (st : St) (c : Candidate) :
    idx_part (apply_build st c) = idx_part st := by
  unfold apply_build
  cases c.build <;> simp [idx_part, move_to_discarded]

theorem idx_part_process (st : St) (c : Candidate) :
    idx_part (process_candidate st c).1 = idx_part st := by
  by_cases hrec : reconcilable st c
  · rw [process_reconcilable st c hrec]
    cases hb : (resolve_registry st c).2
    · simp only [hb, if_neg Bool.false_ne_true]
      rw [idx_part_apply_build, idx_part_resolve]
    · simp only [hb, if_pos rfl]
      exact idx_part_resolve st c
  · rw [process_skipped st c hrec]

theorem idx_part_bmp_loop :
    ∀ (cands : List Candidate) (st : St) (m : Int),
      idx_part (bmp_loop cands st m).st = idx_part st
  | [], _, _ => rfl
  | c :: rest, st, m => by
      rcases hp : process_candidate st c with ⟨st1, k⟩
      have h1 : idx_part st1 = idx_part st := by
        have h := idx_part_process st c
        rw [hp] at h
        exact h
      cases k
      · rw [show bmp_loop (c :: rest) st m = bmp_loop rest st1 m by
          simp [bmp_loop, hp]]
        rw [idx_part_bmp_loop rest st1 m, h1]
      · rw [show (bmp_loop (c :: rest) st m).st = (bmp_loop rest st1 (m - 1)).st by
          simp [bmp_loop, hp]]
        rw [idx_part_bmp_loop rest st1 (m - 1), h1]
      · by_cases hm : m - 1 ≤ 0
        · rw [show (bmp_loop (c :: rest) st m).st = st1 by simp [bmp_loop, hp, hm]]
          exact h1
        · rw [show (bmp_loop (c :: rest) st m).st = (bmp_loop rest st1 (m - 1)).st by
            simp [bmp_loop, hp, hm]]
          rw [idx_part_bmp_loop rest st1 (m - 1), h1]

/-- A failed set-if-absent leaves the store unchanged. -/
theorem set_nx_ex_fail (st : St) (now : Nat) (h : (set_nx_ex st now).2 = false) :
    (set_nx_ex st now).1 = st := by
  unfold set_nx_ex at h ⊢
  cases hoi : st.ongoing_indexing with
  | none =>
      rw [hoi] at h
      exact Bool.noConfusion h
  | some e =>
      rw [hoi] at h
      by_cases hlt : now < e
      · simp [hlt]
      · simp [hlt] at h

/-- **C5** Indexing gate: during one daemon pass, unless the reconciliation
loop reported `complete = true` and the set-if-absent lease acquisition
succeeded, no index build runs and none of the four index-flag sets (nor the
lease key) is mutated; in particular a failed acquisition returns
immediately. -/
theorem indexing_gate (cands : List Candidate) (caches : List CacheEntry)
    (pub : Bool) (now : Nat) (st : St)
    (h : (build_missing_pickles cands st).complete = false ∨
      (set_nx_ex (build_missing_pickles cands st).st now).2 = false) :
    (to_run_forever cands caches pub now st).trace = [] ∧
    idx_part (to_run_forever cands caches pub now st).st = idx_part st := by
  have hbmp : idx_part (build_missing_pickles cands st).st = idx_part st :=
    idx_part_bmp_loop cands st 50
  by_cases hc : (build_missing_pickles cands st).complete = true
  · have hacq : (set_nx_ex (build_missing_pickles cands st).st now).2 = false := by
      rcases h with h | h
      · rw [hc] at h; cases h
      · exact h
    have hci : check_indexes pub now caches (build_missing_pickles cands st).st
        = ⟨(set_nx_ex (build_missing_pickles cands st).st now).1, [], false⟩ := by
      unfold check_indexes
      rw [if_pos hacq]
    have hrun : to_run_forever cands caches pub now st
        = ⟨(set_nx_ex (build_missing_pickles cands st).st now).1, true, [], false⟩ := by
      unfold to_run_forever
      rw [if_pos hc, hci]
    rw [hrun, set_nx_ex_fail _ _ hacq]
    exact ⟨rfl, hbmp⟩
  · have hrun : to_run_forever cands caches pub now st
        = ⟨(build_missing_pickles cands st).st, false, [], false⟩ := by
      unfold to_run_forever
      rw [if_neg hc]
    rw [hrun]
    exact ⟨rfl, hbmp⟩

/-- Closed witness for C5: reconciliation of an empty backlog completes, but
the lease is held by another process, so the pass touches no index state. -/
theorem indexing_gate_witness :
    (to_run_forever [] [cache_ok] false 0 st_leased).trace = [] ∧
    idx_part (to_run_forever [] [cache_ok] false 0 st_leased).st
      = idx_part st_leased :=
  indexing_gate [] [cache_ok] false 0 st_leased (Or.inr rfl)

/-! ## C6: lease release -/

/-- Counterexample to C6 as stated: with the lease acquired and a single
catalog entry whose tree build fails with `MissingUUID` (an exception the
coordinator does not catch), `_check_indexes` terminates exceptionally and
the lease key is left set instead of being deleted. -/
theorem lease_release_counterexample :
    (set_nx_ex st_empty 0).2 = true ∧
    (check_indexes false 0 [cache_missing] st_empty).raised = true ∧
    (check_indexes false 0 [cache_missing] st_empty).st.ongoing_indexing
      = some 300 := by
  exact ⟨rfl, rfl, rfl⟩

theorem idx_loop_no_raise (pub : Bool) :
    ∀ (caches : List CacheEntry) (st : St),
      (∀ c ∈ caches, c.tree = .ok ∨ c.tree = .noValidHar) →
      (idx_loop pub caches st).raised = false
  | [], _, _ => rfl
  | c :: rest, st, h => by
      have hc := h c (List.mem_cons_self c rest)
      have hrest : ∀ d ∈ rest, d.tree = .ok ∨ d.tree = .noValidHar :=
        fun d hd => h d (List.mem_cons_of_mem c hd)
      by_cases hni : (pub && c.noIndex) = true
      · have : index_capture pub st c = (st, [], .skippedNoIndex) := by
          simp [index_capture, hni]
        simp [idx_loop, this]
        exact idx_loop_no_raise pub rest st hrest
      · have hni' : (pub && c.noIndex) = false := by simpa using hni
        by_cases hall : all_indexed (read_flags st c.uuid) = true
        · have : index_capture pub st c = (st, [], .skippedIndexed) := by
            simp [index_capture, hni', hall]
          simp [idx_loop, this]
          exact idx_loop_no_raise pub rest st hrest
        · have hall' : all_indexed (read_flags st c.uuid) = false := by
            simpa using hall
          rcases hc with htree | htree
          · have : index_capture pub st c
                = ((run_missing_indexes st c (read_flags st c.uuid)).1,
                   (run_missing_indexes st c (read_flags st c.uuid)).2, .built) := by
              simp [index_capture, hni', hall', htree]
            simp [idx_loop, this]
            exact idx_loop_no_raise pub rest _ hrest
          · have : index_capture pub st c
                = (remove_pickle st c, [], .removedPickle) := by
              simp [index_capture, hni', hall', htree]
            simp [idx_loop, this]
            exact idx_loop_no_raise pub rest _ hrest

/-- **C6** (amended) Lease release: when the Index Coordinator runs with the
lease acquired and every per-capture tree failure during the catalog
iteration is a malformed-artifact (`NoValidHarFile`) failure, it deletes the
lease key at the end of the pass and nothing propagates to the caller.  (As
stated the claim is refuted by `lease_release_counterexample`: a
`MissingUUID` failure from the tree builder is not caught, propagates, and
skips the release, leaving the lease to expire via its TTL.) -/
theorem lease_release_amended (pub : Bool) (now : Nat)
    (caches : List CacheEntry) (st : St)
    (hsafe : ∀ c ∈ caches, c.tree = .ok ∨ c.tree = .noValidHar) :
    (check_indexes pub now caches st).raised = false ∧
    ((set_nx_ex st now).2 = true →
      (check_indexes pub now caches st).st.ongoing_indexing = none) := by
  by_cases hacq : (set_nx_ex st now).2 = false
  · have hci : check_indexes pub now caches st
        = ⟨(set_nx_ex st now).1, [], false⟩ := by
      unfold check_indexes
      rw [if_pos hacq]
    rw [hci]
    exact ⟨rfl, fun h => absurd h (by rw [hacq]; exact Bool.false_ne_true)⟩
  · have hraise := idx_loop_no_raise pub caches (set_nx_ex st now).1 hsafe
    have hci : check_indexes pub now caches st
        = ⟨del_lease (idx_loop pub caches (set_nx_ex st now).1).st,
           (idx_loop pub caches (set_nx_ex st now).1).trace, false⟩ := by
      unfold check_indexes
      rw [if_neg hacq, if_neg (by rw [hraise]; exact Bool.false_ne_true)]
    rw [hci]
    exact ⟨rfl, fun _ => rfl⟩

/-- Closed witness for C6 (amended): a pass over a healthy and a broken
capture releases the lease and raises nothing. -/
theorem lease_release_amended_witness :
    (check_indexes false 0 [cache_ok, cache_broken] st_empty).raised = false ∧
    (check_indexes false 0 [cache_ok, cache_broken] st_empty).st.ongoing_indexing
      = none := by
  have h := lease_release_amended false 0 [cache_ok, cache_broken] st_empty
    (by
      intro c hc
      simp only [List.mem_cons, List.not_mem_nil, or_false] at hc
      rcases hc with rfl | rfl
      · exact Or.inl rfl
      · exact Or.inr rfl)
  exact ⟨h.1, h.2 rfl⟩

/-! ## C3: the completion signal -/

theorem bmp_loop_bounds :
    ∀ (cands : List Candidate) (st : St) (m : Int),
      ((bmp_loop cands st m).complete = true →
        (bmp_loop cands st m).attempts = 0 ∨
        ((bmp_loop cands st m).attempts : Int) ≤ m - 1) ∧
      ((bmp_loop cands st m).complete = false →
        m ≤ ((bmp_loop cands st m).attempts : Int) + (bmp_loop cands st m).dups ∧
        1 ≤ (bmp_loop cands st m).attempts)
  | [], st, m => by
      constructor
      · intro _
        exact Or.inl rfl
      · intro h
        exact Bool.noConfusion h
  | c :: rest, st, m => by
      rcases hp : process_candidate st c with ⟨st1, k⟩
      cases k
      · have hres : bmp_loop (c :: rest) st m = bmp_loop rest st1 m := by
          simp [bmp_loop, hp]
        rw [hres]
        exact bmp_loop_bounds rest st1 m
      · have ih := bmp_loop_bounds rest st1 (m - 1)
        have hco : (bmp_loop (c :: rest) st m).complete
            = (bmp_loop rest st1 (m - 1)).complete := by simp [bmp_loop, hp]
        have hat : (bmp_loop (c :: rest) st m).attempts
            = (bmp_loop rest st1 (m - 1)).attempts := by simp [bmp_loop, hp]
        have hdu : (bmp_loop (c :: rest) st m).dups
            = (bmp_loop rest st1 (m - 1)).dups + 1 := by simp [bmp_loop, hp]
        rw [hco, hat, hdu]
        constructor
        · intro hc
          rcases ih.1 hc with h0 | hle
          · exact Or.inl h0
          · right; omega
        · intro hc
          have := ih.2 hc
          exact ⟨by omega, this.2⟩
      · by_cases hm : m - 1 ≤ 0
        · have hco : (bmp_loop (c :: rest) st m).complete = false := by
            simp [bmp_loop, hp, hm]
          have hat : (bmp_loop (c :: rest) st m).attempts = 1 := by
            simp [bmp_loop, hp, hm]
          have hdu : (bmp_loop (c :: rest) st m).dups = 0 := by
            simp [bmp_loop, hp, hm]
          rw [hco, hat, hdu]
          constructor
          · intro hc
            exact Bool.noConfusion hc
          · intro _
            exact ⟨by omega, le_refl 1⟩
        · have ih := bmp_loop_bounds rest st1 (m - 1)
          have hco : (bmp_loop (c :: rest) st m).complete
              = (bmp_loop rest st1 (m - 1)).complete := by simp [bmp_loop, hp, hm]
          have hat : (bmp_loop (c :: rest) st m).attempts
              = (bmp_loop rest st1 (m - 1)).attempts + 1 := by simp [bmp_loop, hp, hm]
          have hdu : (bmp_loop (c :: rest) st m).dups
              = (bmp_loop rest st1 (m - 1)).dups := by simp [bmp_loop, hp, hm]
          rw [hco, hat, hdu]
          constructor
          · intro hc
            rcases ih.1 hc with h0 | hle
            · right; rw [h0]; omega
            · right; push_cast at hle ⊢; omega
          · intro hc
            have h2 := ih.2 hc
            exact ⟨by push_cast at h2 ⊢; omega, by omega⟩

/-- Counterexample to C3 as stated: with exactly 50 reconcilable candidates,
every candidate of the stream is attempted — the stream is exhausted — yet
`_build_missing_pickles` returns `False`, because the batch-limit break fires
right after the final candidate's build (the `for`/`else` clause is
skipped). -/
theorem completion_signal_counterexample :
    (build_missing_pickles fresh_cands50 st_fresh50).attempts
        = fresh_cands50.length ∧
    fresh_cands50.length = 50 ∧
    (build_missing_pickles fresh_cands50 st_fresh50).complete = false := by
  exact ⟨rfl, rfl, rfl⟩

/-- **C3** (amended) Completion signal: `complete = false` is returned
exactly when the pass stopped early at an attempted build with the slot
budget exhausted: a `false` pass performed at least one attempted build and
consumed at least the 50 budget slots (attempted builds plus
duplicate-quarantines), while a `true` pass performed at most 49 attempted
builds.  (As stated the claim is refuted by
`completion_signal_counterexample`: exhausting the candidate stream does not
guarantee `complete = true`.) -/
theorem completion_signal (cands : List Candidate) (st : St) :
    ((build_missing_pickles cands st).complete = true →
      (build_missing_pickles cands st).attempts ≤ 49) ∧
    ((build_missing_pickles cands st).complete = false →
      50 ≤ (build_missing_pickles cands st).attempts
        + (build_missing_pickles cands st).dups ∧
      1 ≤ (build_missing_pickles cands st).attempts) := by
  have h := bmp_loop_bounds cands st 50
  unfold build_missing_pickles
  constructor
  · intro hc
    rcases h.1 hc with h0 | hle
    · omega
    · omega
  · intro hc
    have := h.2 hc
    omega

/-- Closed witness for C3 (amended): the 51-candidate backlog returns
`false` after exactly 50 attempted builds. -/
theorem completion_signal_witness :
    50 ≤ (build_missing_pickles fresh_cands51 st_fresh51).attempts
      + (build_missing_pickles fresh_cands51 st_fresh51).dups ∧
    1 ≤ (build_missing_pickles fresh_cands51 st_fresh51).attempts :=
  (completion_signal fresh_cands51 st_fresh51).2 rfl

/-! ## C2: the batch bound -/

theorem filter_recon_congr (rest : List Candidate) {st st1 : St} {dp du : String}
    (hpres : StepPres st st1 dp du) (hpaths : ∀ d ∈ rest, d.path ≠ dp) :
    rest.filter (fun d => decide (reconcilable st1 d))
      = rest.filter (fun d => decide (reconcilable st d)) := by
  apply List.filter_congr
  intro d hd
  exact decide_eq_decide.mpr (stepPres_reconcilable hpres d (hpaths d hd))

theorem bmp_loop_saturate :
    ∀ (cands : List Candidate) (st : St) (k : Nat),
      0 < k →
      (cands.map Candidate.path).Nodup →
      ((cands.filter (fun c => decide (reconcilable st c))).map Candidate.uuid).Nodup →
      (∀ c ∈ cands, reconcilable st c → regOK st c) →
      k < (cands.filter (fun c => decide (reconcilable st c))).length →
      (bmp_loop cands st (k : Int)).complete = false ∧
      (bmp_loop cands st (k : Int)).attempts = k
  | [], _, k, _, _, _, _, hcount => absurd hcount (by simp)
  | c :: rest, st, k, hk, hpaths, huuids, hreg, hcount => by
      by_cases hrec : reconcilable st c
      · have hregc : regOK st c := hreg c (List.mem_cons_self c rest) hrec
        have hstep : process_candidate st c
            = (apply_build (resolve_registry st c).1 c, .attempted) :=
          process_attempted st c hrec hregc
        have hpres : StepPres st (apply_build (resolve_registry st c).1 c) c.path c.uuid := by
          have h := stepPres_process st c
          rw [hstep] at h
          exact h
        have hfil : (c :: rest).filter (fun c => decide (reconcilable st c))
            = c :: rest.filter (fun c => decide (reconcilable st c)) := by
          simp [List.filter_cons, hrec]
        have hcnotin : c.path ∉ rest.map Candidate.path := (List.nodup_cons.mp hpaths).1
        have hptail : (rest.map Candidate.path).Nodup := (List.nodup_cons.mp hpaths).2
        have hpathsne : ∀ d ∈ rest, d.path ≠ c.path := by
          intro d hd he
          exact hcnotin (he ▸ List.mem_map_of_mem Candidate.path hd)
        have hfil1 : rest.filter (fun d =>
              decide (reconcilable (apply_build (resolve_registry st c).1 c) d))
            = rest.filter (fun d => decide (reconcilable st d)) :=
          filter_recon_congr rest hpres hpathsne
        rw [hfil, List.map_cons, List.nodup_cons] at huuids
        have hcunotin := huuids.1
        have hutail := huuids.2
        have hreg1 : ∀ d ∈ rest,
            reconcilable (apply_build (resolve_registry st c).1 c) d →
            regOK (apply_build (resolve_registry st c).1 c) d := by
          intro d hd hrec1
          have hdp := hpathsne d hd
          have hrecd : reconcilable st d := (stepPres_reconcilable hpres d hdp).mp hrec1
          have hdu : d.uuid ≠ c.uuid := by
            intro he
            apply hcunotin
            rw [← he]
            exact List.mem_map_of_mem Candidate.uuid
              (List.mem_filter.mpr ⟨hd, decide_eq_true hrecd⟩)
          have hgd := hreg d (List.mem_cons_of_mem c hd) hrecd
          unfold regOK at hgd ⊢
          rw [hpres.2.2 d.uuid hdu]
          exact hgd
        have hcount1 : k - 1 < (rest.filter (fun d =>
            decide (reconcilable (apply_build (resolve_registry st c).1 c) d))).length := by
          rw [hfil1]
          rw [hfil, List.length_cons] at hcount
          omega
        by_cases hk1 : k = 1
        · subst hk1
          have hm : ((1:Nat) : Int) - 1 ≤ 0 := by norm_num
          exact ⟨by simp [bmp_loop, hstep, hm], by simp [bmp_loop, hstep, hm]⟩
        · have hmne : ¬ ((k : Int) - 1 ≤ 0) := by
            omega
          have hcast : (k : Int) - 1 = ((k - 1 : Nat) : Int) := by
            omega
          have ih := bmp_loop_saturate rest (apply_build (resolve_registry st c).1 c)
            (k - 1) (by omega) hptail (by rw [hfil1]; exact hutail) hreg1 hcount1
          have hco : (bmp_loop (c :: rest) st (k:Int)).complete
              = (bmp_loop rest (apply_build (resolve_registry st c).1 c) ((k:Int) - 1)).complete := by
            simp [bmp_loop, hstep, hmne]
          have hat : (bmp_loop (c :: rest) st (k:Int)).attempts
              = (bmp_loop rest (apply_build (resolve_registry st c).1 c) ((k:Int) - 1)).attempts + 1 := by
            simp [bmp_loop, hstep, hmne]
          rw [hco, hat, hcast]
          exact ⟨ih.1, by rw [ih.2]; omega⟩
      · have hfil : (c :: rest).filter (fun c => decide (reconcilable st c))
            = rest.filter (fun c => decide (reconcilable st c)) := by
          simp [List.filter_cons, hrec]
        have hstep : process_candidate st c = (st, .skipped) := process_skipped st c hrec
        have hres : bmp_loop (c :: rest) st (k:Int) = bmp_loop rest st (k:Int) := by
          simp [bmp_loop, hstep]
        rw [hres]
        rw [hfil] at huuids hcount
        exact bmp_loop_saturate rest st k hk (List.nodup_cons.mp hpaths).2 huuids
          (fun d hd => hreg d (List.mem_cons_of_mem c hd)) hcount

/-- Counterexample to C2 as stated: a store with 51 reconcilable, unlocked
candidates, all of which are duplicates of still-existing registered
directories.  Every candidate consumes a `max_captures` slot before the
duplicate check, then `continue`s past the break check: the pass performs 0
build attempts (not 50) and returns `complete = true` (not `false`). -/
theorem batch_bound_counterexample :
    (∀ c ∈ dup_cands, reconcilable st_dups c ∧ c.locked = false) ∧
    50 < (dup_cands.filter (fun c => decide (reconcilable st_dups c))).length ∧
    (build_missing_pickles dup_cands st_dups).complete = true ∧
    (build_missing_pickles dup_cands st_dups).attempts = 0 := by
  exact ⟨by decide, by decide, rfl, rfl⟩

/-- **C2** (amended) Batch bound: for every store with more than 50
reconcilable, unlocked candidates on distinct paths, with pairwise distinct
UUIDs among the reconcilable ones, none of which conflicts with the Location
Registry (entry absent or already canonical), one reconciliation pass
performs exactly 50 attempted builds and returns `complete = false`; skipped
candidates do not consume the budget.  (As stated the claim is refuted by
`batch_bound_counterexample`: duplicate-quarantined candidates also consume
`max_captures` slots without a build attempt.) -/
theorem batch_bound (cands : List Candidate) (st : St)
    (hpaths : (cands.map Candidate.path).Nodup)
    (huuids : ((cands.filter (fun c => decide (reconcilable st c))).map
      Candidate.uuid).Nodup)
    (hreg : ∀ c ∈ cands, reconcilable st c → regOK st c)
    (hcount : 50 < (cands.filter (fun c => decide (reconcilable st c))).length) :
    (build_missing_pickles cands st).complete = false ∧
    (build_missing_pickles cands st).attempts = 50 :=
  bmp_loop_saturate cands st 50 (by norm_num) hpaths huuids hreg hcount

/-- Closed witness for C2 (amended): 51 fresh candidates yield exactly 50
attempted builds and `complete = false`. -/
theorem batch_bound_witness :
    (build_missing_pickles fresh_cands51 st_fresh51).complete = false ∧
    (build_missing_pickles fresh_cands51 st_fresh51).attempts = 50 :=
  batch_bound fresh_cands51 st_fresh51 (by decide) (by decide) (by decide) (by decide)

/-! ## C10: idempotence of a completed reconciliation pass -/

theorem inert_of_not_reconcilable (st : St) (c : Candidate)
    (h : ¬ reconcilable st c) : Inert st c := by
  by_cases h1 : c.path ∈ st.exdirs
  · by_cases h2 : c.path ∈ st.pickles
    · exact Or.inr (Or.inl h2)
    · by_cases h3 : c.hasHar = true
      · by_cases h4 : c.locked = false
        · exact absurd ⟨h1, h2, h3, h4⟩ h
        · exact Or.inr (Or.inr (Or.inr (Or.inl (by simpa using h4))))
      · exact Or.inr (Or.inr (Or.inl (by simpa using h3)))
  · exact Or.inl h1

theorem inert_step (st : St) (c : Candidate) (h : Inert st c) :
    process_candidate st c = (st, .skipped) ∨
    process_candidate st c = (st, .attempted) := by
  by_cases hrec : reconcilable st c
  · right
    obtain ⟨h1, h2, h3, h4⟩ := hrec
    rcases h with h | h | h | h | ⟨hg, _, hb⟩
    · exact absurd h1 h
    · exact absurd h h2
    · rw [h3] at h; exact Bool.noConfusion h
    · rw [h4] at h; exact Bool.noConfusion h
    · rw [process_attempted st c ⟨h1, h2, h3, h4⟩ (Or.inr hg)]
      have hr : resolve_registry st c = (st, false) := by
        simp [resolve_registry, hg]
      rw [hr]
      rcases hb with hb | hb <;> simp [apply_build, hb]
  · left; exact process_skipped st c hrec

theorem inert_preserved (st : St) (d c : Candidate) (hpath : c.path ≠ d.path)
    (h : Inert st c) : Inert (process_candidate st d).1 c := by
  have hpres := stepPres_process st d
  rcases h with h | h | h | h | ⟨hg, hex, hb⟩
  · exact Or.inl (fun hmem => h ((hpres.1 c.path hpath).mp hmem))
  · exact Or.inr (Or.inl ((hpres.2.1 c.path hpath).mpr h))
  · exact Or.inr (Or.inr (Or.inl h))
  · exact Or.inr (Or.inr (Or.inr (Or.inl h)))
  · by_cases hdu : c.uuid = d.uuid
    · have hgd : hget st.lookup_dirs d.uuid = some c.path := by
        rw [← hdu]; exact hg
      rcases process_of_dup st d c.path hgd hpath hex with heq | heq
      · rw [heq]
        exact Or.inr (Or.inr (Or.inr (Or.inr ⟨hg, hex, hb⟩)))
      · rw [heq]
        exact Or.inr (Or.inr (Or.inr (Or.inr
          ⟨hg, (mem_filter_ne _ _ _ hpath).mpr hex, hb⟩)))
    · refine Or.inr (Or.inr (Or.inr (Or.inr ⟨?_, (hpres.1 c.path hpath).mpr hex, hb⟩)))
      rw [hpres.2.2 c.uuid hdu]
      exact hg

theorem inert_loop_preserved :
    ∀ (cands : List Candidate) (st : St) (m : Int) (c : Candidate),
      c.path ∉ cands.map Candidate.path → Inert st c →
      Inert (bmp_loop cands st m).st c
  | [], _, _, _, _, h => h
  | d :: rest, st, m, c, hnotin, h => by
      rw [List.map_cons] at hnotin
      have hne : c.path ≠ d.path := fun he => hnotin (he ▸ List.mem_cons_self _ _)
      have hnotin1 : c.path ∉ rest.map Candidate.path :=
        fun hm => hnotin (List.mem_cons_of_mem _ hm)
      have h1 : Inert (process_candidate st d).1 c := inert_preserved st d c hne h
      rcases hp : process_candidate st d with ⟨st1, k⟩
      rw [hp] at h1
      cases k
      · have heq : bmp_loop (d :: rest) st m = bmp_loop rest st1 m := by
          simp [bmp_loop, hp]
        rw [heq]
        exact inert_loop_preserved rest st1 m c hnotin1 h1
      · have heq : (bmp_loop (d :: rest) st m).st = (bmp_loop rest st1 (m - 1)).st := by
          simp [bmp_loop, hp]
        rw [heq]
        exact inert_loop_preserved rest st1 (m - 1) c hnotin1 h1
      · by_cases hm : m - 1 ≤ 0
        · have heq : (bmp_loop (d :: rest) st m).st = st1 := by
            simp [bmp_loop, hp, hm]
          rw [heq]
          exact h1
        · have heq : (bmp_loop (d :: rest) st m).st = (bmp_loop rest st1 (m - 1)).st := by
            simp [bmp_loop, hp, hm]
          rw [heq]
          exact inert_loop_preserved rest st1 (m - 1) c hnotin1 h1

theorem bmp_loop_inert :
    ∀ (cands : List Candidate) (st : St) (m : Int),
      (∀ c ∈ cands, Inert st c) → (bmp_loop cands st m).st = st
  | [], _, _, _ => rfl
  | c :: rest, st, m, h => by
      have hrest : ∀ d ∈ rest, Inert st d := fun d hd => h d (List.mem_cons_of_mem c hd)
      rcases inert_step st c (h c (List.mem_cons_self c rest)) with hp | hp
      · have heq : bmp_loop (c :: rest) st m = bmp_loop rest st m := by
          simp [bmp_loop, hp]
        rw [heq]
        exact bmp_loop_inert rest st m hrest
      · by_cases hm : m - 1 ≤ 0
        · simp [bmp_loop, hp, hm]
        · have heq : (bmp_loop (c :: rest) st m).st = (bmp_loop rest st (m - 1)).st := by
            simp [bmp_loop, hp, hm]
          rw [heq]
          exact bmp_loop_inert rest st (m - 1) hrest

theorem resolve_dup (st : St) (c : Candidate)
    (h : (resolve_registry st c).2 = true) :
    (resolve_registry st c).1 = move_to_discarded st c.path := by
  cases hg : hget st.lookup_dirs c.uuid with
  | none =>
      have hr : resolve_registry st c
          = ({ st with lookup_dirs := hset st.lookup_dirs c.uuid c.path }, false) := by
        simp [resolve_registry, hg]
      rw [hr] at h
      exact Bool.noConfusion h
  | some p =>
      by_cases hp : p = c.path
      · have hr : resolve_registry st c = (st, false) := by
          simp [resolve_registry, hg, hp]
        rw [hr] at h
        exact Bool.noConfusion h
      · by_cases hex : p ∈ st.exdirs
        · have hr : resolve_registry st c = (move_to_discarded st c.path, true) := by
            simp [resolve_registry, hg, hp, hex]
          rw [hr]
        · have hr : resolve_registry st c
              = ({ st with lookup_dirs := hset st.lookup_dirs c.uuid c.path }, false) := by
            simp [resolve_registry, hg, hp, hex]
          rw [hr] at h
          exact Bool.noConfusion h

/-- After any attempted build on a reconcilable candidate with a
non-quarantining registry step, the candidate is inert. -/
theorem inert_after_attempt (st : St) (c : Candidate)
    (hrec : reconcilable st c) (hb : (resolve_registry st c).2 = false) :
    Inert (apply_build (resolve_registry st c).1 c) c := by
  have hX := resolve_no_dup st c hb
  cases hbu : c.build with
  | ok =>
      refine Or.inr (Or.inl ?_)
      show c.path ∈ (apply_build (resolve_registry st c).1 c).pickles
      simp [apply_build, hbu]
  | missingUUID =>
      refine Or.inr (Or.inr (Or.inr (Or.inr ⟨?_, ?_, Or.inl hbu⟩)))
      · show hget (apply_build (resolve_registry st c).1 c).lookup_dirs c.uuid = some c.path
        rw [show apply_build (resolve_registry st c).1 c = (resolve_registry st c).1 by
          simp [apply_build, hbu]]
        exact hX.1
      · show c.path ∈ (apply_build (resolve_registry st c).1 c).exdirs
        rw [show apply_build (resolve_registry st c).1 c = (resolve_registry st c).1 by
          simp [apply_build, hbu]]
        rw [hX.2.1]
        exact hrec.1
  | noValidHar =>
      refine Or.inr (Or.inr (Or.inr (Or.inr ⟨?_, ?_, Or.inr hbu⟩)))
      · show hget (apply_build (resolve_registry st c).1 c).lookup_dirs c.uuid = some c.path
        rw [show apply_build (resolve_registry st c).1 c = (resolve_registry st c).1 by
          simp [apply_build, hbu]]
        exact hX.1
      · show c.path ∈ (apply_build (resolve_registry st c).1 c).exdirs
        rw [show apply_build (resolve_registry st c).1 c = (resolve_registry st c).1 by
          simp [apply_build, hbu]]
        rw [hX.2.1]
        exact hrec.1
  | otherErr =>
      refine Or.inl ?_
      show c.path ∉ (apply_build (resolve_registry st c).1 c).exdirs
      simp only [apply_build, hbu]
      exact not_mem_filter_self _ _

theorem bmp_inert_after :
    ∀ (cands : List Candidate) (st : St) (m : Int),
      (cands.map Candidate.path).Nodup →
      (bmp_loop cands st m).complete = true →
      ∀ c ∈ cands, Inert (bmp_loop cands st m).st c
  | [], _, _, _, _, c, hc => absurd hc (List.not_mem_nil c)
  | c :: rest, st, m, hnd, hcomp, d, hd => by
      have hcnotin : c.path ∉ rest.map Candidate.path := (List.nodup_cons.mp hnd).1
      have hndtail : (rest.map Candidate.path).Nodup := (List.nodup_cons.mp hnd).2
      by_cases hrec : reconcilable st c
      · cases hbres : (resolve_registry st c).2 with
        | true =>
            have hp : process_candidate st c
                = (move_to_discarded st c.path, .dupDiscarded) := by
              rw [process_reconcilable st c hrec, hbres]
              rw [resolve_dup st c hbres]
              simp
            have hloopst : (bmp_loop (c :: rest) st m).st
                = (bmp_loop rest (move_to_discarded st c.path) (m - 1)).st := by
              simp [bmp_loop, hp]
            have hloopco : (bmp_loop (c :: rest) st m).complete
                = (bmp_loop rest (move_to_discarded st c.path) (m - 1)).complete := by
              simp [bmp_loop, hp]
            rw [hloopco] at hcomp
            rw [hloopst]
            rcases List.mem_cons.mp hd with rfl | hdr
            · exact inert_loop_preserved rest (move_to_discarded st d.path) (m - 1) d
                hcnotin (Or.inl (not_mem_filter_self _ _))
            · exact bmp_inert_after rest (move_to_discarded st c.path) (m - 1)
                hndtail hcomp d hdr
        | false =>
            have hp : process_candidate st c
                = (apply_build (resolve_registry st c).1 c, .attempted) := by
              rw [process_reconcilable st c hrec, hbres]
              simp
            by_cases hm : m - 1 ≤ 0
            · have hco : (bmp_loop (c :: rest) st m).complete = false := by
                simp [bmp_loop, hp, hm]
              rw [hco] at hcomp
              exact Bool.noConfusion hcomp
            · have hloopst : (bmp_loop (c :: rest) st m).st
                  = (bmp_loop rest (apply_build (resolve_registry st c).1 c) (m - 1)).st := by
                simp [bmp_loop, hp, hm]
              have hloopco : (bmp_loop (c :: rest) st m).complete
                  = (bmp_loop rest (apply_build (resolve_registry st c).1 c) (m - 1)).complete := by
                simp [bmp_loop, hp, hm]
              rw [hloopco] at hcomp
              rw [hloopst]
              rcases List.mem_cons.mp hd with rfl | hdr
              · exact inert_loop_preserved rest (apply_build (resolve_registry st d).1 d)
                  (m - 1) d hcnotin (inert_after_attempt st d hrec hbres)
              · exact bmp_inert_after rest (apply_build (resolve_registry st c).1 c)
                  (m - 1) hndtail hcomp d hdr
      · have hp : process_candidate st c = (st, .skipped) := process_skipped st c hrec
        have hloop : bmp_loop (c :: rest) st m = bmp_loop rest st m := by
          simp [bmp_loop, hp]
        rw [hloop] at hcomp ⊢
        rcases List.mem_cons.mp hd with rfl | hdr
        · exact inert_loop_preserved rest st m d hcnotin
            (inert_of_not_reconcilable st d hrec)
        · exact bmp_inert_after rest st m hndtail hcomp d hdr

/-- **C10** Reconciliation idempotence: immediately after a completed pass
(`complete = true`), running a second pass over the same candidates leaves
the whole store — in particular the Location Registry and the set of cached
artifacts — exactly as the first pass left it. -/
theorem reconciliation_idempotence (cands : List Candidate) (st : St)
    (hnd : (cands.map Candidate.path).Nodup)
    (hc : (build_missing_pickles cands st).complete = true) :
    (build_missing_pickles cands (build_missing_pickles cands st).st).st
        = (build_missing_pickles cands st).st ∧
    (build_missing_pickles cands (build_missing_pickles cands st).st).st.lookup_dirs
        = (build_missing_pickles cands st).st.lookup_dirs ∧
    (build_missing_pickles cands (build_missing_pickles cands st).st).st.pickles
        = (build_missing_pickles cands st).st.pickles := by
  have hA := bmp_inert_after cands st 50 hnd hc
  have h : (build_missing_pickles cands (build_missing_pickles cands st).st).st
      = (build_missing_pickles cands st).st :=
    bmp_loop_inert cands (build_missing_pickles cands st).st 50 hA
  exact ⟨h, by rw [h], by rw [h]⟩

/-- Closed witness for C10: a one-candidate backlog, rebuilt then re-scanned. -/
theorem reconciliation_idempotence_witness :
    (build_missing_pickles [cand_b1] (build_missing_pickles [cand_b1] st_p1).st).st
      = (build_missing_pickles [cand_b1] st_p1).st :=
  (reconciliation_idempotence [cand_b1] st_p1 (by decide) rfl).1

end BackgroundIndexer
